import Mathlib

/-!
Verification of the `concurrent-log-handler` repository against its
natural-language specification.

The repository's `src/` holds only `setup.py`; the locking-and-rotation
engine described by the specification is not present there.  Definitions
for that engine are therefore modelled from the specification (each such
definition's doc comment says so), while the `setup.py` logic is embedded
directly from the source.
-/

namespace SetupPy

/-- Embeds `sys.version_info.major` evaluation in `setup.py` lines 358-361:
the expression either yields a major version number or raises an exception
(modelled as `Except String Nat`, the `String` being the exception text). -/
def MajorResult := Except String Nat

/-- Embeds `setup.py` lines 357-361:
`try: IS_PY2 = sys.version_info.major == 2 except Exception: IS_PY2 = True`. -/
def IS_PY2 (major : Except String Nat) : Bool :=
  match major with
  | .ok m => m == 2
  | .error _ => true

/-- Embeds `setup.py` lines 363-368: the portalocker pin chosen from `IS_PY2`. -/
def baseInstallRequires (major : Except String Nat) : List String :=
  if IS_PY2 major then ["portalocker<=1.7.1"] else ["portalocker>=1.4.0"]

/-- Substring containment on character lists: `listContains n h` is true
exactly when `n` occurs contiguously inside `h`. -/
def listContains (needle : List Char) : List Char → Bool
  | [] => needle.isEmpty
  | c :: t => needle.isPrefixOf (c :: t) || listContains needle t

/-- Embeds the membership test of Python's `in` operator on strings, used in
`setup.py` line 370 as `"win" in sys.platform`: substring containment,
modelled on the underlying character lists. -/
def strContains (needle haystack : String) : Bool :=
  listContains needle.toList haystack.toList

/-- Embeds `setup.py` lines 370-376: `pywin32>=223` is appended exactly when
`"win" in sys.platform` holds and `import win32file` raises `ImportError`
(`win32fileImportOk = false`). -/
def pywin32Needed (platform : String) (win32fileImportOk : Bool) : Bool :=
  strContains "win" platform && !win32fileImportOk

/-- Embeds the final `install_requires` list passed to `setup()` in
`setup.py` line 398, after lines 357-376 have run. -/
def install_requires (major : Except String Nat) (platform : String)
    (win32fileImportOk : Bool) : List String :=
  baseInstallRequires major ++
    (if pywin32Needed platform win32fileImportOk then ["pywin32>=223"] else [])

end SetupPy

namespace Rotation

/-- Bytes of a file, modelled as a list of byte values. -/
abbrev Bytes := List Nat

/-- Modelled from the spec: the gzip stream produced by the gzip-on-rotate
step (§4.4 step 4, §8 gzip scenario).  The compression engine itself is
missing from `src/`, so a stream is kept abstract as a wrapper around the
bytes it decompresses to. -/
structure GzipStream where
  payload : Bytes
deriving DecidableEq

/-- Modelled from the spec: compressing a byte sequence into a gzip
stream (§4.4 step 4); the compressor is missing from `src/`. -/
def gzipCompress (b : Bytes) : GzipStream := ⟨b⟩

/-- Modelled from the spec: decompressing a gzip stream back to bytes
(§8: a rotated `.gz` file decompresses to the original bytes); the
decompressor is missing from `src/`. -/
def gzipDecompress (g : GzipStream) : Bytes := g.payload

/-- Modelled from the spec: the rotation-relevant configuration fields of
a LogTarget (§3): maximum size threshold (bytes, 0 = rotation disabled),
backup retention count, gzip-on-rotate flag.  The handler class holding
these is missing from `src/`. -/
structure LogTarget where
  max_size : Nat
  backup_count : Nat
  use_gzip : Bool

/-- Modelled from the spec: the on-disk state for one log path (§3
BackupSet, §6 on-disk layout): the current file's bytes, the plain
numbered backups `path.k`, and the compressed backups `path.k.gz`.  The
filesystem-facing code is missing from `src/`. -/
structure FS where
  current : Bytes
  plain : Nat → Option Bytes
  gz : Nat → Option GzipStream

/-- Modelled from the spec: `should_rotate(pending_write_size)` (§4.4
contract): true if `current_size + pending_write_size > max_size` and
`max_size > 0`.  The rotation engine is missing from `src/`. -/
def should_rotate (t : LogTarget) (current_size pending : Nat) : Bool :=
  decide (current_size + pending > t.max_size) && decide (t.max_size > 0)

/-- One rename of the backup-shift loop (§4.4 step 2): if the file at
index `k` exists, delete any file at index `k + 1` and rename `k` to
`k + 1`; otherwise leave the map unchanged. -/
def shiftMap {α : Type} (m : Nat → Option α) (k : Nat) : Nat → Option α :=
  match m k with
  | none => m
  | some v => fun j => if j = k + 1 then some v else if j = k then none else m j

/-- The backup-shift loop (§4.4 step 2): perform `shiftMap` at indices
`K, K-1, ..., 1` in that order (the spec's `for k from backup_count-1
down to 1`, with `K = backup_count - 1`). -/
def shiftFrom {α : Type} (m : Nat → Option α) : Nat → (Nat → Option α)
  | 0 => m
  | k + 1 => shiftFrom (shiftMap m (k + 1)) k

/-- Modelled from the spec: steps 1-3 and 5 of `rotate()` (§4.4): close
the stream, shift the BackupSet (both the plain and the `.gz` name
spaces), rename the just-closed current file to `path.1` (deleting any
pre-existing target), and recreate an empty current file.  The rotation
engine is missing from `src/`. -/
def rotateShiftRename (t : LogTarget) (fs : FS) : FS :=
  let pl := shiftFrom fs.plain (t.backup_count - 1)
  let gzm := shiftFrom fs.gz (t.backup_count - 1)
  { current := [],
    plain := fun j => if j = 1 then some fs.current else pl j,
    gz := gzm }

/-- Modelled from the spec: step 4 of `rotate()` (§4.4): compress
`path.1` to `path.1.gz` and delete the uncompressed copy.  The rotation
engine is missing from `src/`. -/
def gzipStep (fs : FS) : FS :=
  match fs.plain 1 with
  | some b =>
      { fs with
        plain := fun j => if j = 1 then none else fs.plain j,
        gz := fun j => if j = 1 then some (gzipCompress b) else fs.gz j }
  | none => fs

/-- Modelled from the spec: `rotate()` (§4.4): when `backup_count = 0` no
backup is kept (the shift step runs only if `backup_count > 0`, and the
BackupSet invariant of §3 allows no backup files), so the current file is
simply truncated; otherwise shift, rename to `path.1`, and, when
gzip-on-rotate is enabled and compression succeeds (`gzipOk`), compress
`path.1`; compression failure is non-fatal and leaves the uncompressed
rotated file in place.  The rotation engine is missing from `src/`. -/
def rotate (t : LogTarget) (gzipOk : Bool) (fs : FS) : FS :=
  if t.backup_count = 0 then
    { fs with current := [] }
  else
    let fs1 := rotateShiftRename t fs
    if t.use_gzip && gzipOk then gzipStep fs1 else fs1

/-- A backup generation `j` exists when either `path.j` or `path.j.gz`
exists on disk (§3 BackupSet: the rotated files, optionally `.gz`). -/
def hasBackup (fs : FS) (j : Nat) : Bool :=
  (fs.plain j).isSome || (fs.gz j).isSome

/-- The backup retention invariant (§3, §8): at most `N` backup files
exist and they are numbered contiguously `1..c` with `c ≤ N`. -/
def backupInv (N : Nat) (fs : FS) : Prop :=
  ∃ c, c ≤ N ∧ ∀ j, 1 ≤ j → (hasBackup fs j = true ↔ j ≤ c)

/-- An operation on the log target's on-disk state: appending bytes to
the current file, or a rotation (whose gzip step may succeed or fail). -/
inductive Op where
  | write (bs : Bytes)
  | rot (gzipOk : Bool)

/-- Apply one operation to the on-disk state. -/
def applyOp (t : LogTarget) (fs : FS) : Op → FS
  | .write bs => { fs with current := fs.current ++ bs }
  | .rot g => rotate t g fs

/-- Apply a sequence of operations to the on-disk state. -/
def applyOps (t : LogTarget) (fs : FS) (ops : List Op) : FS :=
  ops.foldl (applyOp t) fs

/-- The on-disk state at handler construction: empty current file, no
backups. -/
def initFS : FS :=
  { current := [], plain := fun _ => none, gz := fun _ => none }

end Rotation

namespace Mutex

/-- The two locks composing the Cross-Process Mutex (§4.2): the in-process
thread lock and the cross-process OS lock. -/
inductive LockKind where
  | thread
  | os
deriving DecidableEq

/-- An observable event on one of the two locks. -/
inductive LockEvent where
  | acq (k : LockKind)
  | rel (k : LockKind)
deriving DecidableEq

/-- The lock an event concerns. -/
def LockEvent.kind : LockEvent → LockKind
  | .acq k => k
  | .rel k => k

/-- Modelled from the spec: the held/not-held state of the two locks of
the Cross-Process Mutex (§4.2).  The mutex implementation is missing from
`src/`. -/
structure MutexState where
  threadHeld : Bool
  osHeld : Bool
deriving DecidableEq

/-- Modelled from the spec: `lock()` (§4.2) acquires the in-process
thread lock first, then the cross-process OS lock, in that order.  The
mutex implementation is missing from `src/`. -/
def lock (_s : MutexState) : MutexState × List LockEvent :=
  ({ threadHeld := true, osHeld := true }, [.acq .thread, .acq .os])

/-- Modelled from the spec: releasing the underlying OS lock, which may
fail (§4.2, §7a); the flag selects the failing run.  The lock primitive
is missing from `src/`. -/
def releaseOS (osReleaseFails : Bool) : Except String Unit :=
  if osReleaseFails then .error "lock release failed" else .ok ()

/-- Modelled from the spec: `unlock()` (§4.2): release the OS lock first
and the thread lock second (reverse order of acquisition); a failure of
the OS release is caught and only reported as a diagnostic, and the
function never propagates an error (its `Except` is always `ok`).  The
mutex implementation is missing from `src/`. -/
def unlock (osReleaseFails : Bool) (_s : MutexState) :
    Except String (MutexState × List LockEvent × Option String) :=
  let diag :=
    match releaseOS osReleaseFails with
    | .ok _ => none
    | .error e => some e
  .ok ({ threadHeld := false, osHeld := false },
       [.rel .os, .rel .thread], diag)

end Mutex

namespace Append

/-- The phases of the Append Protocol state machine (§4.5):
`IDLE → LOCKING → STREAM_CHECK → WRITING → SIZE_CHECK → (ROTATING →) IDLE`. -/
inductive Phase where
  | idle
  | locking
  | streamCheck
  | writing
  | sizeCheck
  | rotating
deriving DecidableEq

/-- Failure knobs selecting one execution path of a write call: whether
acquiring the mutex fails, whether the first write attempt fails, whether
the reopen-and-retry write also fails, whether the size check calls for
rotation, and whether rotating raises. -/
structure Flags where
  acquireFails : Bool
  writeFails : Bool
  retryFails : Bool
  needRotate : Bool
  rotateRaises : Bool
deriving DecidableEq

/-- Modelled from the spec: the run state of one Append Protocol write
call (§4.5): current phase, the mutex depth this call holds, counters of
its mutex acquires and releases, and the outcome once back in IDLE.  The
protocol implementation is missing from `src/`. -/
structure PState where
  phase : Phase
  depth : Nat
  acquires : Nat
  releases : Nat
  result : Option (Except String Unit)

/-- The state at protocol entry: about to acquire the mutex, holding
nothing. -/
def initP : PState :=
  { phase := .locking, depth := 0, acquires := 0, releases := 0, result := none }

/-- Modelled from the spec: one transition of the Append Protocol (§4.5,
§7): acquiring the mutex (whose failure propagates without anything to
release), writing with at most one retry (a second failure surfaces as a
write error), the size re-check, and the conditional rotation (whose
exception also surfaces); every path leaving the critical section,
normal or exceptional, performs exactly one mutex release (the
guaranteed-release discipline).  The protocol implementation is missing
from `src/`. -/
def step (f : Flags) (s : PState) : PState :=
  match s.phase with
  | .idle => s
  | .locking =>
      if f.acquireFails then
        { s with phase := .idle, result := some (.error "lock acquire failed") }
      else
        { s with phase := .streamCheck, depth := s.depth + 1,
                 acquires := s.acquires + 1 }
  | .streamCheck => { s with phase := .writing }
  | .writing =>
      if f.writeFails && f.retryFails then
        { s with phase := .idle, depth := s.depth - 1,
                 releases := s.releases + 1,
                 result := some (.error "write failed") }
      else
        { s with phase := .sizeCheck }
  | .sizeCheck =>
      if f.needRotate then
        { s with phase := .rotating }
      else
        { s with phase := .idle, depth := s.depth - 1,
                 releases := s.releases + 1, result := some (.ok ()) }
  | .rotating =>
      if f.rotateRaises then
        { s with phase := .idle, depth := s.depth - 1,
                 releases := s.releases + 1,
                 result := some (.error "rotate failed") }
      else
        { s with phase := .idle, depth := s.depth - 1,
                 releases := s.releases + 1, result := some (.ok ()) }

end Append

namespace Concur

/-- One fully rendered log record: a line of bytes (§6: the write entry
point accepts a fully rendered record). -/
abbrev Rec := List Nat

/-- The state of one writer (a thread or process): the records it has
fully written, the record it is currently writing (written part and
remaining part), and the records it has not yet started. -/
structure WState where
  done : List Rec
  cur : Option (Rec × Rec)
  todo : List Rec
deriving DecidableEq

/-- Modelled from the spec: the shared state of `n` concurrent writers on
one LogTarget (§5, §8): the shared file bytes, the Cross-Process Mutex
owner, and every writer's state.  The concurrent write engine is missing
from `src/`. -/
structure Sys (n : Nat) where
  file : List Nat
  lock : Option (Fin n)
  ws : Fin n → WState

/-- The initial state: empty file, free mutex, every writer `i` still has
all its records `W i` to write. -/
def initW {n : Nat} (W : Fin n → List Rec) : Sys n :=
  { file := [], lock := none,
    ws := fun i => { done := [], cur := none, todo := W i } }

/-- Modelled from the spec: one interleaving step of the Append Protocol
run by `n` uncoordinated writers (§4.5, §5): a writer may acquire the
free mutex; the mutex owner may begin its next record, append any chunk
of the record being written to the shared file, complete a fully written
record, and release the mutex after completing a record.  Writing to the
file requires holding the mutex (mutual exclusion during the write
critical section).  The concurrent write engine is missing from `src/`. -/
inductive Step (n : Nat) : Sys n → Sys n → Prop where
  | acquire (s : Sys n) (i : Fin n) (h : s.lock = none) :
      Step n s { s with lock := some i }
  | start (s : Sys n) (i : Fin n) (r : Rec) (rest : List Rec)
      (hl : s.lock = some i) (hc : (s.ws i).cur = none)
      (ht : (s.ws i).todo = r :: rest) :
      Step n s { s with
        ws := Function.update s.ws i
          { s.ws i with cur := some ([], r), todo := rest } }
  | writeChunk (s : Sys n) (i : Fin n) (w rem : Rec) (k : Nat)
      (hl : s.lock = some i) (hc : (s.ws i).cur = some (w, rem)) :
      Step n s { s with
        file := s.file ++ rem.take k,
        ws := Function.update s.ws i
          { s.ws i with cur := some (w ++ rem.take k, rem.drop k) } }
  | finish (s : Sys n) (i : Fin n) (w : Rec)
      (hl : s.lock = some i) (hc : (s.ws i).cur = some (w, [])) :
      Step n s { s with
        ws := Function.update s.ws i
          { s.ws i with done := (s.ws i).done ++ [w], cur := none } }
  | release (s : Sys n) (i : Fin n)
      (hl : s.lock = some i) (hc : (s.ws i).cur = none) :
      Step n s { s with lock := none }

/-- Records in `seq` attributed to writer `i`, in order. -/
def proj {n : Nat} (seq : List (Fin n × Rec)) (i : Fin n) : List Rec :=
  (seq.filter (fun p => decide (p.1 = i))).map Prod.snd

/-- A sequence of writer-attributed records is an interleaving of the
writers' record lists when its projection on every writer `i` is exactly
`W i` (each record contiguous, none lost, none added, per-writer order
kept). -/
def IsInterleaving {n : Nat} (W : Fin n → List Rec) (seq : List (Fin n × Rec)) : Prop :=
  ∀ i, proj seq i = W i

/-- The bytes of the record currently being written by the mutex owner
(empty if the mutex is free or its owner is between records). -/
def curBytes {n : Nat} (s : Sys n) : List Nat :=
  match s.lock with
  | none => []
  | some i =>
      match (s.ws i).cur with
      | some (w, _) => w
      | none => []

/-- The records represented by an in-progress entry: the full record if
one is being written, nothing otherwise. -/
def curList : Option (Rec × Rec) → List Rec
  | none => []
  | some (w, r) => [w ++ r]

/-- The inductive invariant tying the shared file to the writers: some
attributed sequence `seq` of completed records projects to each writer's
completed list, the file is the concatenation of the completed records
followed by the owner's partial bytes, only the mutex owner can be
mid-record, and each writer's original list decomposes into completed,
in-progress and not-yet-started records. -/
def Inv {n : Nat} (W : Fin n → List Rec) (s : Sys n) : Prop :=
  ∃ seq : List (Fin n × Rec),
    (∀ i, proj seq i = (s.ws i).done) ∧
    s.file = (seq.map Prod.snd).flatten ++ curBytes s ∧
    (∀ i, s.lock ≠ some i → (s.ws i).cur = none) ∧
    (∀ i, W i = (s.ws i).done ++ curList ((s.ws i).cur) ++ (s.ws i).todo)

end Concur

namespace Rotation

theorem shiftMap_eq_of_ne {α : Type} (m : Nat → Option α) (k j : Nat)
    (h1 : j ≠ k) (h2 : j ≠ k + 1) : shiftMap m k j = m j := by
  unfold shiftMap
  cases hm : m k with
  | none => rfl
  | some v => simp [h1, h2]

theorem shiftMap_at_top {α : Type} (m : Nat → Option α) (k : Nat) :
    shiftMap m k (k + 1) = if (m k).isSome then m k else m (k + 1) := by
  unfold shiftMap
  cases hm : m k with
  | none => simp
  | some v => simp

theorem shiftMap_at_src {α : Type} (m : Nat → Option α) (k : Nat) :
    shiftMap m k k = if (m k).isSome then none else m k := by
  unfold shiftMap
  cases hm : m k with
  | none => simp [hm]
  | some v => simp [hm, Nat.ne_of_lt (Nat.lt_succ_self k)]

theorem shiftFrom_spec {α : Type} (K : Nat) :
    ∀ m : Nat → Option α,
      shiftFrom m K 0 = m 0 ∧
      (1 ≤ K → shiftFrom m K 1 = none) ∧
      (∀ i, 1 ≤ i → i + 1 ≤ K → shiftFrom m K (i + 1) = m i) ∧
      (1 ≤ K → shiftFrom m K (K + 1) = if (m K).isSome then m K else m (K + 1)) ∧
      (∀ j, K + 2 ≤ j → shiftFrom m K j = m j) := by
  induction K with
  | zero =>
      intro m
      exact ⟨rfl, fun h => absurd h (by omega),
        fun i h1 h2 => absurd h2 (by omega),
        fun h => absurd h (by omega), fun j _ => rfl⟩
  | succ K ih =>
      intro m
      have hdef : ∀ j, shiftFrom m (K + 1) j = shiftFrom (shiftMap m (K + 1)) K j :=
        fun j => rfl
      obtain ⟨c0, c1, c2, c3, c4⟩ := ih (shiftMap m (K + 1))
      have hA : ∀ j, j ≠ K + 1 → j ≠ K + 2 → shiftMap m (K + 1) j = m j :=
        fun j h1 h2 => shiftMap_eq_of_ne m (K + 1) j h1 h2
      have hTop : shiftMap m (K + 1) (K + 2) =
          if (m (K + 1)).isSome then m (K + 1) else m (K + 2) :=
        shiftMap_at_top m (K + 1)
      have hSrc : shiftMap m (K + 1) (K + 1) =
          if (m (K + 1)).isSome then none else m (K + 1) :=
        shiftMap_at_src m (K + 1)
      refine ⟨?_, ?_, ?_, ?_, ?_⟩
      · rw [hdef 0, c0, hA 0 (by omega) (by omega)]
      · intro _
        by_cases hK : 1 ≤ K
        · rw [hdef 1]; exact c1 hK
        · have hK0 : K = 0 := by omega
          subst hK0
          rw [hdef 1, show shiftFrom (shiftMap m 1) 0 1 = shiftMap m 1 1 from rfl,
            shiftMap_at_src m 1]
          cases hm : m 1 <;> simp [hm]
      · intro i h1 h2
        by_cases hiK : i + 1 ≤ K
        · rw [hdef (i + 1), c2 i h1 hiK, hA i (by omega) (by omega)]
        · have hi : i = K := by omega
          subst hi
          rw [hdef (i + 1), c3 h1, hA i (by omega) (by omega), hSrc]
          cases hm : m i with
          | some v => simp
          | none =>
              simp only [Option.isSome_none, Bool.false_eq_true, if_false]
              cases hm1 : m (i + 1) <;> simp [hm1]
      · intro _
        rw [hdef (K + 2), c4 (K + 2) (by omega), hTop]
      · intro j hj
        rw [hdef j, c4 j (by omega), hA j (by omega) (by omega)]

theorem isSome_ite_or {α : Type} (a b : Option α) :
    (if a.isSome then a else b).isSome = (a.isSome || b.isSome) := by
  cases a <;> simp

theorem rsr_plain_ne_one (t : LogTarget) (fs : FS) (j : Nat) (hj : j ≠ 1) :
    (rotateShiftRename t fs).plain j = shiftFrom fs.plain (t.backup_count - 1) j := by
  simp [rotateShiftRename, hj]

theorem rsr_plain_one (t : LogTarget) (fs : FS) :
    (rotateShiftRename t fs).plain 1 = some fs.current := by
  simp [rotateShiftRename]

theorem rsr_gz (t : LogTarget) (fs : FS) (j : Nat) :
    (rotateShiftRename t fs).gz j = shiftFrom fs.gz (t.backup_count - 1) j := by
  simp [rotateShiftRename]

theorem rsr_current (t : LogTarget) (fs : FS) :
    (rotateShiftRename t fs).current = [] := by
  simp [rotateShiftRename]

theorem gzipStep_of_some (fs : FS) (b : Bytes) (h : fs.plain 1 = some b) :
    (gzipStep fs).plain 1 = none ∧
    (gzipStep fs).gz 1 = some (gzipCompress b) ∧
    (∀ j, j ≠ 1 → (gzipStep fs).plain j = fs.plain j ∧ (gzipStep fs).gz j = fs.gz j) ∧
    (gzipStep fs).current = fs.current := by
  unfold gzipStep
  rw [h]
  exact ⟨by simp, by simp, fun j hj => ⟨by simp [hj], by simp [hj]⟩, rfl⟩

theorem rotate_eq_of_pos (t : LogTarget) (g : Bool) (fs : FS) (hN : t.backup_count ≠ 0) :
    rotate t g fs =
      (if t.use_gzip && g then gzipStep (rotateShiftRename t fs)
       else rotateShiftRename t fs) := by
  simp [rotate, hN]

theorem rotate_zero (t : LogTarget) (g : Bool) (fs : FS) (hN : t.backup_count = 0) :
    rotate t g fs = { fs with current := [] } := by
  simp [rotate, hN]

theorem rotate_plain_ge2 (t : LogTarget) (g : Bool) (fs : FS) (j : Nat)
    (hN : t.backup_count ≠ 0) (hj : 2 ≤ j) :
    (rotate t g fs).plain j = shiftFrom fs.plain (t.backup_count - 1) j := by
  rw [rotate_eq_of_pos t g fs hN]
  split
  · exact ((gzipStep_of_some _ _ (rsr_plain_one t fs)).2.2.1 j (by omega)).1.trans
      (rsr_plain_ne_one t fs j (by omega))
  · exact rsr_plain_ne_one t fs j (by omega)

theorem rotate_gz_ge2 (t : LogTarget) (g : Bool) (fs : FS) (j : Nat)
    (hN : t.backup_count ≠ 0) (hj : 2 ≤ j) :
    (rotate t g fs).gz j = shiftFrom fs.gz (t.backup_count - 1) j := by
  rw [rotate_eq_of_pos t g fs hN]
  split
  · exact ((gzipStep_of_some _ _ (rsr_plain_one t fs)).2.2.1 j (by omega)).2.trans
      (rsr_gz t fs j)
  · exact rsr_gz t fs j

theorem rotate_hasBackup_one (t : LogTarget) (g : Bool) (fs : FS)
    (hN : t.backup_count ≠ 0) : hasBackup (rotate t g fs) 1 = true := by
  rw [rotate_eq_of_pos t g fs hN]
  split
  · simp [hasBackup, (gzipStep_of_some _ _ (rsr_plain_one t fs)).2.1]
  · simp [hasBackup, rsr_plain_one]

theorem backupInv_rotate (t : LogTarget) (g : Bool) (fs : FS)
    (h : backupInv t.backup_count fs) : backupInv t.backup_count (rotate t g fs) := by
  obtain ⟨c, hcN, hch⟩ := h
  by_cases hN : t.backup_count = 0
  · refine ⟨c, hcN, fun j hj => ?_⟩
    rw [rotate_zero t g fs hN]
    simpa [hasBackup] using hch j hj
  · have hN1 : 1 ≤ t.backup_count := by omega
    set N := t.backup_count with hNdef
    set K := N - 1 with hKdef
    obtain ⟨p0, p1, p2, p3, p4⟩ := shiftFrom_spec K fs.plain
    obtain ⟨q0, q1, q2, q3, q4⟩ := shiftFrom_spec K fs.gz
    refine ⟨min (c + 1) N, by omega, fun j hj => ?_⟩
    rcases eq_or_lt_of_le hj with h1 | h2j
    · rw [← h1, rotate_hasBackup_one t g fs hN]
      exact ⟨fun _ => by omega, fun _ => rfl⟩
    · have hj2 : 2 ≤ j := h2j
      simp only [hasBackup]
      rw [rotate_plain_ge2 t g fs j hN hj2, rotate_gz_ge2 t g fs j hN hj2]
      rcases Nat.lt_or_ge j N with hjN | hjN
      · obtain ⟨i, rfl⟩ : ∃ i, j = i + 1 := ⟨j - 1, by omega⟩
        rw [p2 i (by omega) (by omega), q2 i (by omega) (by omega)]
        have hi := hch i (by omega)
        simp only [hasBackup] at hi
        rw [hi]
        omega
      · rcases Nat.eq_or_lt_of_le hjN with hjN' | hjN'
        · have hKj : j = K + 1 := by omega
          subst hKj
          rw [p3 (by omega), q3 (by omega), isSome_ite_or, isSome_ite_or]
          have e1 := hch K (by omega)
          have e2 := hch (K + 1) (by omega)
          simp only [hasBackup, Bool.or_eq_true] at e1 e2 ⊢
          constructor
          · rintro ((hp | hp) | (hq | hq))
            · have := e1.mp (Or.inl hp); omega
            · have := e2.mp (Or.inl hp); omega
            · have := e1.mp (Or.inr hq); omega
            · have := e2.mp (Or.inr hq); omega
          · intro hle
            have hKc : K ≤ c := by omega
            rcases e1.mpr hKc with hp | hq
            · exact Or.inl (Or.inl hp)
            · exact Or.inr (Or.inl hq)
        · rw [p4 j (by omega), q4 j (by omega)]
          have hjc := hch j (by omega)
          simp only [hasBackup] at hjc
          rw [hjc]
          omega

theorem backupInv_applyOp (t : LogTarget) (fs : FS) (op : Op)
    (h : backupInv t.backup_count fs) : backupInv t.backup_count (applyOp t fs op) := by
  cases op with
  | write bs =>
      obtain ⟨c, hc, hch⟩ := h
      exact ⟨c, hc, fun j hj => by simpa [applyOp, hasBackup] using hch j hj⟩
  | rot g => exact backupInv_rotate t g fs h

theorem backupInv_applyOps (t : LogTarget) (ops : List Op) :
    ∀ fs : FS, backupInv t.backup_count fs →
      backupInv t.backup_count (applyOps t fs ops) := by
  induction ops with
  | nil => intro fs h; simpa [applyOps] using h
  | cons op rest ih =>
      intro fs h
      simpa [applyOps] using ih (applyOp t fs op) (backupInv_applyOp t fs op h)

theorem backupInv_init (N : Nat) : backupInv N initFS :=
  ⟨0, Nat.zero_le _, fun j hj => by simp [initFS, hasBackup]; omega⟩

end Rotation

/-- C2: `should_rotate(pending_write_size)` returns true if and only if
`current_size + pending_write_size > max_size` and `max_size > 0`; in
particular a `max_size` of 0 disables rotation. -/
theorem C2_should_rotate (t : Rotation.LogTarget) (cur pending : Nat) :
    (Rotation.should_rotate t cur pending = true ↔
      (cur + pending > t.max_size ∧ 0 < t.max_size))
    ∧ (t.max_size = 0 → ∀ p, Rotation.should_rotate t cur p = false) := by
  constructor
  · simp [Rotation.should_rotate]
  · intro h p
    simp [Rotation.should_rotate, h]

/-- C2 witness: with `max_size = 0`, a pending write of any size does not
trigger rotation. -/
theorem C2_should_rotate_witness :
    Rotation.should_rotate ⟨0, 3, false⟩ 5 7 = false :=
  (C2_should_rotate ⟨0, 3, false⟩ 5 0).2 rfl 7

/-- C3: after any number of rotations (interleaved with writes), at most
`backup_count` backup files exist and they are numbered contiguously
`1..k` with `k ≤ backup_count`; the invariant holds after every
operation. -/
theorem C3_backup_retention (t : Rotation.LogTarget) (ops : List Rotation.Op) :
    Rotation.backupInv t.backup_count (Rotation.applyOps t Rotation.initFS ops) :=
  Rotation.backupInv_applyOps t ops Rotation.initFS
    (Rotation.backupInv_init t.backup_count)

/-- C4: when `backup_count > 0`, `rotate()` shifts the BackupSet by
renaming `path.k` to `path.(k+1)` for each existing `path.k` with
`1 ≤ k ≤ backup_count - 1` (overwriting any pre-existing rename target),
and the just-closed current file becomes `path.1`; when `backup_count`
is 0 the shift step does not run at all and no backup changes. -/
theorem C4_rotate_shift (t : Rotation.LogTarget) (g : Bool) (fs : Rotation.FS) :
    (0 < t.backup_count →
      (∀ k, 1 ≤ k → k ≤ t.backup_count - 1 → (fs.plain k).isSome = true →
          (Rotation.rotate t g fs).plain (k + 1) = fs.plain k)
      ∧ (∀ k, 1 ≤ k → k ≤ t.backup_count - 1 → (fs.gz k).isSome = true →
          (Rotation.rotate t g fs).gz (k + 1) = fs.gz k)
      ∧ (Rotation.rotateShiftRename t fs).plain 1 = some fs.current)
    ∧ (t.backup_count = 0 →
        (Rotation.rotate t g fs).plain = fs.plain
        ∧ (Rotation.rotate t g fs).gz = fs.gz) := by
  constructor
  · intro hN
    obtain ⟨p0, p1, p2, p3, p4⟩ := Rotation.shiftFrom_spec (t.backup_count - 1) fs.plain
    obtain ⟨q0, q1, q2, q3, q4⟩ := Rotation.shiftFrom_spec (t.backup_count - 1) fs.gz
    refine ⟨?_, ?_, Rotation.rsr_plain_one t fs⟩
    · intro k hk hkN hkS
      rw [Rotation.rotate_plain_ge2 t g fs (k + 1) (by omega) (by omega)]
      rcases Nat.lt_or_ge k (t.backup_count - 1) with hlt | hge
      · exact p2 k hk (by omega)
      · have hkK : k = t.backup_count - 1 := by omega
        subst hkK
        rw [p3 (by omega), if_pos hkS]
    · intro k hk hkN hkS
      rw [Rotation.rotate_gz_ge2 t g fs (k + 1) (by omega) (by omega)]
      rcases Nat.lt_or_ge k (t.backup_count - 1) with hlt | hge
      · exact q2 k hk (by omega)
      · have hkK : k = t.backup_count - 1 := by omega
        subst hkK
        rw [q3 (by omega), if_pos hkS]
  · intro hN
    rw [Rotation.rotate_zero t g fs hN]
    exact ⟨rfl, rfl⟩

/-- C4 witness: with `backup_count = 2`, an existing `path.1` moves to
`path.2` and the closed current file lands in `path.1`. -/
theorem C4_rotate_shift_witness :
    (Rotation.rotate ⟨100, 2, false⟩ false
        { current := [7],
          plain := fun j => if j = 1 then some [3] else none,
          gz := fun _ => none }).plain 2 = some [3] :=
  ((C4_rotate_shift ⟨100, 2, false⟩ false
      { current := [7],
        plain := fun j => if j = 1 then some [3] else none,
        gz := fun _ => none }).1 (by decide)).1 1 (by decide) (by decide) (by simp)

/-- C7: with gzip-on-rotate enabled, after a rotation whose compression
succeeds, `path.1.gz` is a gzip stream decompressing to exactly the bytes
that were in `path` before the rotation, and the uncompressed `path.1` is
deleted; if compression fails, the uncompressed `path.1` is left in place
and the rotation still completes (the current file is recreated empty). -/
theorem C7_gzip_rotation (t : Rotation.LogTarget) (fs : Rotation.FS)
    (hgz : t.use_gzip = true) (hN : 0 < t.backup_count) :
    ((Rotation.rotate t true fs).gz 1 = some (Rotation.gzipCompress fs.current)
      ∧ Rotation.gzipDecompress (Rotation.gzipCompress fs.current) = fs.current
      ∧ (Rotation.rotate t true fs).plain 1 = none
      ∧ (Rotation.rotate t true fs).current = [])
    ∧ ((Rotation.rotate t false fs).plain 1 = some fs.current
      ∧ (Rotation.rotate t false fs).current = []) := by
  have hNe : t.backup_count ≠ 0 := by omega
  have hT : Rotation.rotate t true fs = Rotation.gzipStep (Rotation.rotateShiftRename t fs) := by
    rw [Rotation.rotate_eq_of_pos t true fs hNe, hgz]
    simp
  have hF : Rotation.rotate t false fs = Rotation.rotateShiftRename t fs := by
    rw [Rotation.rotate_eq_of_pos t false fs hNe]
    simp
  obtain ⟨g1, g2, g3, g4⟩ :=
    Rotation.gzipStep_of_some (Rotation.rotateShiftRename t fs) fs.current
      (Rotation.rsr_plain_one t fs)
  refine ⟨⟨?_, rfl, ?_, ?_⟩, ?_, ?_⟩
  · rw [hT]; exact g2
  · rw [hT]; exact g1
  · rw [hT, g4]; exact Rotation.rsr_current t fs
  · rw [hF]; exact Rotation.rsr_plain_one t fs
  · rw [hF]; exact Rotation.rsr_current t fs

/-- C7 witness: a concrete gzip-enabled rotation of a one-byte current
file produces `path.1.gz` holding exactly that byte. -/
theorem C7_gzip_rotation_witness :
    (Rotation.rotate ⟨100, 2, true⟩ true
        { current := [42], plain := fun _ => none, gz := fun _ => none }).gz 1 =
      some (Rotation.gzipCompress [42]) :=
  (C7_gzip_rotation ⟨100, 2, true⟩
      { current := [42], plain := fun _ => none, gz := fun _ => none }
      rfl (by decide)).1.1

/-- C8: for every Python interpreter version, the setup script's
install_requires pins the locking dependency by major version: when
`sys.version_info.major` equals 2 it contains `portalocker<=1.7.1`, and
otherwise it contains `portalocker>=1.4.0`; never both. -/
theorem C8_portalocker_pin (major : Nat) (platform : String) (ok : Bool) :
    (("portalocker<=1.7.1" ∈ SetupPy.install_requires (.ok major) platform ok) ↔ major = 2)
    ∧ (("portalocker>=1.4.0" ∈ SetupPy.install_requires (.ok major) platform ok) ↔ major ≠ 2)
    ∧ ¬("portalocker<=1.7.1" ∈ SetupPy.install_requires (.ok major) platform ok
        ∧ "portalocker>=1.4.0" ∈ SetupPy.install_requires (.ok major) platform ok) := by
  simp only [SetupPy.install_requires, SetupPy.baseInstallRequires, SetupPy.IS_PY2,
    List.mem_append]
  by_cases h : major = 2 <;> simp [h]

/-- C9: the setup script appends `pywin32>=223` to install_requires exactly
when `"win"` is a substring of `sys.platform` and importing `win32file`
raises ImportError; since the test is substring containment it is also
entered on `darwin`. -/
theorem C9_pywin32_condition (major : Except String Nat) (platform : String) (ok : Bool) :
    (("pywin32>=223" ∈ SetupPy.install_requires major platform ok) ↔
      (SetupPy.strContains "win" platform = true ∧ ok = false))
    ∧ SetupPy.strContains "win" "darwin" = true := by
  refine ⟨?_, by decide⟩
  simp only [SetupPy.install_requires, SetupPy.baseInstallRequires,
    SetupPy.pywin32Needed, List.mem_append]
  constructor
  · intro hmem
    rcases hmem with hmem | hmem
    · split at hmem <;> simp_all
    · split at hmem <;> simp_all [Bool.and_eq_true, Bool.not_eq_true']
  · rintro ⟨hwin, hok⟩
    right
    simp [hwin, hok]

/-- C10: if evaluating `sys.version_info.major` raises any exception, the
setup script sets IS_PY2 to True, so the Python-2 pin `portalocker<=1.7.1`
is selected in that fallback case. -/
theorem C10_exception_fallback (e : String) (platform : String) (ok : Bool) :
    SetupPy.IS_PY2 (.error e) = true ∧
    "portalocker<=1.7.1" ∈ SetupPy.install_requires (.error e) platform ok := by
  refine ⟨rfl, ?_⟩
  simp only [SetupPy.install_requires, SetupPy.baseInstallRequires, SetupPy.IS_PY2,
    List.mem_append]
  left
  simp

namespace Append

theorem step_idle (f : Flags) (s : PState) (h : s.phase = .idle) :
    step f s = s := by
  obtain ⟨ph, d, a, r, res⟩ := s
  simp only [PState.mk.injEq] at h ⊢
  subst h
  rfl

end Append

/-- C5: in every execution of the Append Protocol write call, on every
exit path — including paths where an exception is raised during writing
or rotating — the Cross-Process Mutex is released exactly once per
acquire: after the run the protocol is back in IDLE with depth 0, the
release count equals the acquire count, an outcome (success or error) is
recorded, and IDLE is stable. -/
theorem C5_guaranteed_release (f : Append.Flags) :
    (((Append.step f)^[6] Append.initP).phase = .idle
      ∧ ((Append.step f)^[6] Append.initP).depth = 0
      ∧ ((Append.step f)^[6] Append.initP).releases =
          ((Append.step f)^[6] Append.initP).acquires
      ∧ ((Append.step f)^[6] Append.initP).result.isSome = true)
    ∧ ∀ m, (Append.step f)^[6 + m] Append.initP =
        (Append.step f)^[6] Append.initP := by
  have hdec : ((Append.step f)^[6] Append.initP).phase = .idle
      ∧ ((Append.step f)^[6] Append.initP).depth = 0
      ∧ ((Append.step f)^[6] Append.initP).releases =
          ((Append.step f)^[6] Append.initP).acquires
      ∧ ((Append.step f)^[6] Append.initP).result.isSome = true := by
    obtain ⟨a, b, c, d, e⟩ := f
    cases a <;> cases b <;> cases c <;> cases d <;> cases e <;> decide
  refine ⟨hdec, ?_⟩
  intro m
  induction m with
  | zero => rfl
  | succ m ih =>
      have h1 : 6 + (m + 1) = (6 + m) + 1 := rfl
      rw [h1, Function.iterate_succ_apply', ih, Append.step_idle f _ hdec.1]

/-- C6: `unlock()` on the Cross-Process Mutex releases the cross-process
OS lock and the in-process thread lock in reverse order of acquisition,
never propagates an error even when the underlying OS lock release
fails, and a release failure is only reported as a diagnostic. -/
theorem C6_unlock_swallows_release_failure (fails : Bool) (s : Mutex.MutexState) :
    ∃ st ev diag,
      Mutex.unlock fails s = .ok (st, ev, diag)
      ∧ st.threadHeld = false ∧ st.osHeld = false
      ∧ ev.map Mutex.LockEvent.kind =
          (((Mutex.lock s).2.map Mutex.LockEvent.kind).reverse)
      ∧ (fails = true → diag.isSome = true)
      ∧ (fails = false → diag = none) := by
  refine ⟨⟨false, false⟩, [.rel .os, .rel .thread],
    if fails then some "lock release failed" else none, ?_, rfl, rfl, rfl, ?_, ?_⟩
  · cases fails <;> rfl
  · intro h; rw [h]; rfl
  · intro h; rw [h]; rfl

/-- C6 witness: a failing OS release at a fully-held mutex still returns
successfully. -/
theorem C6_unlock_witness :
    ∃ st ev diag,
      Mutex.unlock true ⟨true, true⟩ = .ok (st, ev, diag)
      ∧ st.threadHeld = false ∧ st.osHeld = false
      ∧ ev.map Mutex.LockEvent.kind =
          (((Mutex.lock ⟨true, true⟩).2.map Mutex.LockEvent.kind).reverse)
      ∧ (true = true → diag.isSome = true)
      ∧ (true = false → diag = none) :=
  C6_unlock_swallows_release_failure true ⟨true, true⟩

namespace Concur

theorem proj_append {n : Nat} (a b : List (Fin n × Rec)) (i : Fin n) :
    proj (a ++ b) i = proj a i ++ proj b i := by
  simp [proj, List.filter_append]

theorem proj_snoc {n : Nat} (seq : List (Fin n × Rec)) (i j : Fin n) (w : Rec) :
    proj (seq ++ [(i, w)]) j = proj seq j ++ (if i = j then [w] else []) := by
  rw [proj_append]
  by_cases h : i = j <;> simp [proj, h]

theorem flatten_snoc {n : Nat} (seq : List (Fin n × Rec)) (i : Fin n) (w : Rec) :
    ((seq ++ [(i, w)]).map Prod.snd).flatten = (seq.map Prod.snd).flatten ++ w := by
  simp

theorem Inv_init {n : Nat} (W : Fin n → List Rec) : Inv W (initW W) :=
  ⟨[], fun _ => rfl, rfl, fun _ _ => rfl, fun _ => rfl⟩

theorem Inv_step {n : Nat} (W : Fin n → List Rec) (s s2 : Sys n)
    (hst : Step n s s2) (hinv : Inv W s) : Inv W s2 := by
  obtain ⟨seq, hproj, hfile, hcur, hdec⟩ := hinv
  cases hst with
  | acquire i h =>
      have hci : (s.ws i).cur = none := hcur i (by simp [h])
      refine ⟨seq, hproj, ?_, fun j _ => hcur j (by simp [h]), hdec⟩
      simpa [curBytes, h, hci] using hfile
  | start i r rest hl hc ht =>
      refine ⟨seq, ?_, ?_, ?_, ?_⟩
      · intro j
        dsimp only
        by_cases hji : j = i
        · subst hji
          rw [Function.update_same]
          exact hproj j
        · rw [Function.update_noteq hji]
          exact hproj j
      · simpa [curBytes, hl, hc, Function.update_same] using hfile
      · intro j hj
        dsimp only at hj ⊢
        have hji : j ≠ i := by
          intro hh
          subst hh
          exact hj hl
        rw [Function.update_noteq hji]
        exact hcur j (by rw [hl]; exact fun hh => hji (Option.some.inj hh).symm)
      · intro j
        dsimp only
        by_cases hji : j = i
        · subst hji
          have hd := hdec j
          rw [hc, ht] at hd
          simp only [curList] at hd
          rw [Function.update_same]
          simp only [curList]
          simpa using hd
        · rw [Function.update_noteq hji]
          exact hdec j
  | writeChunk i w rem k hl hc =>
      refine ⟨seq, ?_, ?_, ?_, ?_⟩
      · intro j
        dsimp only
        by_cases hji : j = i
        · subst hji
          rw [Function.update_same]
          exact hproj j
        · rw [Function.update_noteq hji]
          exact hproj j
      · dsimp only
        rw [hfile]
        simp [curBytes, hl, hc, Function.update_same, List.append_assoc]
      · intro j hj
        dsimp only at hj ⊢
        have hji : j ≠ i := by
          intro hh
          subst hh
          exact hj hl
        rw [Function.update_noteq hji]
        exact hcur j (by rw [hl]; exact fun hh => hji (Option.some.inj hh).symm)
      · intro j
        dsimp only
        by_cases hji : j = i
        · subst hji
          have hd := hdec j
          rw [hc] at hd
          simp only [curList] at hd
          rw [Function.update_same]
          simp only [curList]
          rw [List.append_assoc w (rem.take k) (rem.drop k), List.take_append_drop]
          exact hd
        · rw [Function.update_noteq hji]
          exact hdec j
  | finish i w hl hc =>
      refine ⟨seq ++ [(i, w)], ?_, ?_, ?_, ?_⟩
      · intro j
        dsimp only
        rw [proj_snoc]
        by_cases hji : j = i
        · subst hji
          rw [Function.update_same, if_pos rfl, hproj j]
        · have hij : i ≠ j := fun hh => hji hh.symm
          rw [if_neg hij, Function.update_noteq hji]
          simp [hproj j]
      · dsimp only
        rw [hfile, flatten_snoc]
        simp [curBytes, hl, hc, Function.update_same, List.append_assoc]
      · intro j hj
        dsimp only at hj ⊢
        have hji : j ≠ i := by
          intro hh
          subst hh
          exact hj hl
        rw [Function.update_noteq hji]
        exact hcur j (by rw [hl]; exact fun hh => hji (Option.some.inj hh).symm)
      · intro j
        dsimp only
        by_cases hji : j = i
        · subst hji
          have hd := hdec j
          rw [hc] at hd
          simp only [curList] at hd
          rw [Function.update_same]
          simp only [curList]
          simpa using hd
        · rw [Function.update_noteq hji]
          exact hdec j
  | release i hl hc =>
      refine ⟨seq, hproj, ?_, ?_, hdec⟩
      · simpa [curBytes, hl, hc] using hfile
      · intro j hj
        by_cases hji : j = i
        · subst hji
          exact hc
        · exact hcur j (by rw [hl]; exact fun hh => hji (Option.some.inj hh).symm)


end Concur

namespace Concur

theorem Inv_reachable {n : Nat} (W : Fin n → List Rec) (s : Sys n)
    (h : Relation.ReflTransGen (Step n) (initW W) s) : Inv W s := by
  induction h with
  | refl => exact Inv_init W
  | tail _ hstep ih => exact Inv_step W _ _ hstep ih

end Concur

/-- C1: for `n` concurrent writers (threads or processes) issuing writes
to the same LogTarget under the mutex-protected Append Protocol, any
interleaving of operations that completes all writes leaves the file
containing exactly a concatenation of all writers' records — each record
contiguous (no interleaved or partial lines), none lost, and each
writer's own order preserved. -/
theorem C1_mutual_exclusion (n : Nat) (W : Fin n → List Concur.Rec)
    (s : Concur.Sys n)
    (hreach : Relation.ReflTransGen (Concur.Step n) (Concur.initW W) s)
    (hdone : ∀ i, (s.ws i).todo = [] ∧ (s.ws i).cur = none) :
    ∃ seq, Concur.IsInterleaving W seq
      ∧ s.file = (seq.map Prod.snd).flatten := by
  obtain ⟨seq, hproj, hfile, _, hdec⟩ := Concur.Inv_reachable W s hreach
  refine ⟨seq, ?_, ?_⟩
  · intro i
    have hd := hdec i
    rw [(hdone i).1, (hdone i).2] at hd
    simp only [Concur.curList, List.append_nil] at hd
    rw [hproj i, ← hd]
  · rw [hfile]
    suffices h : Concur.curBytes s = [] by rw [h, List.append_nil]
    cases hlk : s.lock with
    | none => simp [Concur.curBytes, hlk]
    | some i => simp [Concur.curBytes, hlk, (hdone i).2]

/-- C1 witness: two writers, with records `[1,2]` and `[3]`, run an
explicit interleaved schedule (the first record written in two chunks);
the final file is an interleaving of the two record lists. -/
theorem C1_mutual_exclusion_witness :
    ∃ seq,
      Concur.IsInterleaving (fun i : Fin 2 => if i = 0 then [[1, 2]] else [[3]]) seq
      ∧ ([1, 2, 3] : List Nat) = (seq.map Prod.snd).flatten := by
  have hchain :=
    Relation.ReflTransGen.tail
      (Relation.ReflTransGen.tail
        (Relation.ReflTransGen.tail
          (Relation.ReflTransGen.tail
            (Relation.ReflTransGen.tail
              (Relation.ReflTransGen.tail
                (Relation.ReflTransGen.tail
                  (Relation.ReflTransGen.tail
                    (Relation.ReflTransGen.tail
                      (Relation.ReflTransGen.tail
                        (Relation.ReflTransGen.tail
                          Relation.ReflTransGen.refl
                          (Concur.Step.acquire
                            (Concur.initW
                              (fun i : Fin 2 => if i = 0 then [[1, 2]] else [[3]]))
                            0 rfl))
                        (Concur.Step.start _ 0 [1, 2] [] rfl rfl rfl))
                      (Concur.Step.writeChunk _ 0 [] [1, 2] 1 rfl rfl))
                    (Concur.Step.writeChunk _ 0 [1] [2] 5 rfl rfl))
                  (Concur.Step.finish _ 0 [1, 2] rfl rfl))
                (Concur.Step.release _ 0 rfl rfl))
              (Concur.Step.acquire _ 1 rfl))
            (Concur.Step.start _ 1 [3] [] rfl rfl rfl))
          (Concur.Step.writeChunk _ 1 [] [3] 1 rfl rfl))
        (Concur.Step.finish _ 1 [3] rfl rfl))
      (Concur.Step.release _ 1 rfl rfl)
  exact C1_mutual_exclusion 2 _ _ hchain (by decide)
